import Mathlib

/-!
# OpenRCT2TwitchIntegration: the rate-limit callback and the chatter aggregation

A shallow embedding of `main.go`:

* `rateLimitCallback` (lines 17-36) as a function of the remaining quota, the reset
  timestamp and the clock reading, with `int64` / `time.Duration` wrap-around made explicit;
* `getChatters` (lines 68-172): the HTTP fetch and `json.Unmarshal` are collaborators taken as
  parameters, the six bucket loops are embedded literally over an association-list model of
  `map[string]*viewer`;
* `audienceRequest` (lines 174-202) over an explicit model of the `http.ResponseWriter`.

Library functions that are not part of the repository (`strings.ToLower`, the HTTP client,
`json.Unmarshal`, the string encoder of `encoding/json`, the iteration order of a Go map) are
parameters, so every theorem holds for all of their possible behaviours.
-/

namespace TwitchIntegration

/-! ## Machine integers and durations -/

/-- Two's-complement wrap-around of a mathematical integer into the `int64` range. -/
def wrapInt64 (x : Int) : Int :=
  (x + 9223372036854775808) % 18446744073709551616 - 9223372036854775808

/-- Membership of the `int64` range. -/
def inInt64 (x : Int) : Prop :=
  -9223372036854775808 ≤ x ∧ x ≤ 9223372036854775807

instance (x : Int) : Decidable (inInt64 x) := by
  unfold inInt64; exact inferInstance

/-- Go's `time.Second`, a `time.Duration` counted in nanoseconds. -/
def Second : Int := 1000000000

/-- Go errors, represented by their message. -/
abbrev GoError := String

/-! ## rateLimitCallback (main.go 17-36) -/

/-- What one run of `rateLimitCallback` does: the argument of the `time.Sleep` call when the
call is reached (`none` when it is not), and the returned error (`none` is `nil`). -/
structure CallbackOutcome where
  slept : Option Int
  err : Option GoError
  deriving DecidableEq, Repr

/-- The duration handed to `time.Sleep`, in nanoseconds; `0` when `Sleep` is not called. -/
def CallbackOutcome.requested (o : CallbackOutcome) : Int :=
  o.slept.getD 0

/-- Embedding of `rateLimitCallback`. `remaining` is `GetRateLimitRemaining()`, `reset` is
`GetRateLimitReset()` (the conversion `int64(...)` of an `int` keeps the value) and `now` is
`time.Now().Unix()`. The subtraction is an `int64` subtraction and the product with
`time.Second` is a `time.Duration` (`int64`) product; both wrap. The `Printf` is not
modelled. -/
def rateLimitCallback (remaining reset now : Int) : CallbackOutcome :=
  if remaining > 0 then
    { slept := none, err := none }
  else
    let reset64 := reset
    let currentTime := now
    if currentTime < reset64 then
      let timeDiff := wrapInt64 (reset64 - currentTime)
      if timeDiff > 0 then
        { slept := some (wrapInt64 (timeDiff * Second)), err := none }
      else
        { slept := none, err := none }
    else
      { slept := none, err := none }

/-! ## Data model (main.go 41-50, 88-97) -/

/-- The `response` struct. -/
structure response where
  Status : Int
  deriving DecidableEq, Repr

/-- The `viewer` struct. -/
structure viewer where
  Name : String
  InChat : Bool
  IsFollower : Bool
  IsMod : Bool
  deriving DecidableEq, Repr

/-- The anonymous struct under `tmp.Chatters`: six lists of names. An absent JSON field
leaves a nil slice, which ranges like the empty list. -/
structure ChatterLists where
  Vips : List String
  Moderators : List String
  Staff : List String
  Admins : List String
  GlobalMods : List String
  Viewers : List String
  deriving DecidableEq, Repr

/-- The anonymous struct `tmp` that `json.Unmarshal` fills. -/
structure ChatterDoc where
  Chatters : ChatterLists
  deriving DecidableEq, Repr

/-- Model of `map[string]*viewer`: an association list in which a key occurs at most once
(kept by `ViewerMap.assign`, the only way entries are added). Every stored pointer is fresh,
so the pointee is stored by value. -/
abbrev ViewerMap := List (String × viewer)

/-- The map assignment `m[key] = v`: overwrite the entry under `key` or add one. -/
def ViewerMap.assign : ViewerMap → String → viewer → ViewerMap
  | [], key, v => [(key, v)]
  | (k, old) :: rest, key, v =>
    if k = key then (key, v) :: rest else (k, old) :: ViewerMap.assign rest key v

/-- The map read `m[key]`, with `none` for a missing key. -/
def ViewerMap.get? : ViewerMap → String → Option viewer
  | [], _ => none
  | (k, v) :: rest, key => if k = key then some v else ViewerMap.get? rest key

/-- The keys of the map. -/
def ViewerMap.keys (m : ViewerMap) : List String :=
  m.map Prod.fst

/-- All entries stored under `key`. -/
def ViewerMap.entriesAt (m : ViewerMap) (key : String) : List (String × viewer) :=
  m.filter (fun e => decide (e.1 = key))

/-! ## getChatters (main.go 68-172) -/

/-- The constant `tmiBase`. -/
def tmiBase : String := "http://tmi.twitch.tv/group/user/"

/-- The constant `chatters`. -/
def chatters : String := "/chatters"

/-- Lines 104-171 of `getChatters`: the six loops over the decoded lists, in source order,
each writing `viewers[strings.ToLower(v)] = &viewer{...}` with the literals of the source.
`toLower` stands for `strings.ToLower`. -/
def mergeChatters (toLower : String → String) (c : ChatterLists) : ViewerMap :=
  let viewers : ViewerMap := []
  let viewers := c.Vips.foldl (fun m v =>
    let key := toLower v
    m.assign key { Name := v, IsMod := false, IsFollower := true, InChat := true }) viewers
  let viewers := c.Moderators.foldl (fun m v =>
    let key := toLower v
    m.assign key { Name := v, IsMod := true, IsFollower := true, InChat := true }) viewers
  let viewers := c.Staff.foldl (fun m v =>
    let key := toLower v
    m.assign key { Name := v, IsMod := false, IsFollower := true, InChat := true }) viewers
  let viewers := c.Admins.foldl (fun m v =>
    let key := toLower v
    m.assign key { Name := v, IsMod := true, IsFollower := true, InChat := true }) viewers
  let viewers := c.GlobalMods.foldl (fun m v =>
    let key := toLower v
    m.assign key { Name := v, IsMod := true, IsFollower := true, InChat := true }) viewers
  let viewers := c.Viewers.foldl (fun m v =>
    let key := toLower v
    m.assign key { Name := v, IsMod := false, IsFollower := true, InChat := true }) viewers
  viewers

/-- The collaborators of the two handlers that live outside the repository.

* `toLower`: `strings.ToLower`;
* `httpGet`: the request of lines 69-86 (`http.NewRequest`, `client.Do`, `ioutil.ReadAll`)
  as a function of the URL: the body read, or the error of whichever step failed;
* `jsonUnmarshal`: `json.Unmarshal` into `tmp`, an error on a malformed body;
* `jsonQuote`: the string encoder of `encoding/json`;
* `rangeOrder`: the order in which `range` visits the entries of a map. -/
structure Env where
  toLower : String → String
  httpGet : String → Except GoError String
  jsonUnmarshal : String → Except GoError ChatterDoc
  jsonQuote : String → String
  rangeOrder : ViewerMap → List (String × viewer)

/-- Embedding of `getChatters`. `Except.error err` is the return `nil, err`;
`Except.ok viewers` is the return `viewers, nil` of the map made at line 104. -/
def getChatters (env : Env) (channel : String) : Except GoError ViewerMap :=
  match env.httpGet (tmiBase ++ channel ++ chatters) with
  | .error err => .error err
  | .ok body =>
    match env.jsonUnmarshal body with
    | .error err => .error err
    | .ok tmp =>
      let c := tmp.Chatters
      .ok (mergeChatters env.toLower c)

/-! ## The response writer and audienceRequest (main.go 174-202) -/

/-- The observable state of an `http.ResponseWriter`: the header map, the status code once
written, and the bytes of the body. -/
structure ResponseWriter where
  header : List (String × String)
  statusCode : Option Nat
  body : String
  deriving DecidableEq, Repr

/-- A writer nothing has been written to. -/
def ResponseWriter.fresh : ResponseWriter :=
  { header := [], statusCode := none, body := "" }

/-- The call `w.Header().Set(key, value)`. -/
def ResponseWriter.setHeader (w : ResponseWriter) (key value : String) : ResponseWriter :=
  { w with header := (key, value) :: w.header.filter (fun e => decide (e.1 ≠ key)) }

/-- The call `w.Write(js)`: the first write fixes the status to 200 when none was set. -/
def ResponseWriter.write (w : ResponseWriter) (js : String) : ResponseWriter :=
  { w with statusCode := some (w.statusCode.getD 200), body := w.body ++ js }

/-- The call `http.Error(w, msg, code)`. -/
def httpError (w : ResponseWriter) (msg : String) (code : Nat) : ResponseWriter :=
  let w := w.setHeader "Content-Type" "text/plain; charset=utf-8"
  let w := w.setHeader "X-Content-Type-Options" "nosniff"
  { w with statusCode := some (w.statusCode.getD code), body := w.body ++ msg ++ "\n" }

/-- The call `json.Marshal` on a `response`: one integer field tagged `status`. -/
def marshalResponse (r : response) : Except GoError String :=
  .ok ("\x7b\"status\":" ++ toString r.Status ++ "\x7d")

/-- JSON text of a boolean. -/
def marshalBool (b : Bool) : String :=
  if b then "true" else "false"

/-- JSON object of one `viewer`, fields in declaration order under their tags. -/
def marshalViewer (quote : String → String) (v : viewer) : String :=
  "\x7b\"name\":" ++ quote v.Name ++ ",\"inChat\":" ++ marshalBool v.InChat ++
    ",\"isFollower\":" ++ marshalBool v.IsFollower ++ ",\"isMod\":" ++ marshalBool v.IsMod ++
    "\x7d"

/-- The call `json.Marshal` on the non-nil slice `result`: a JSON array. -/
def marshalViewers (quote : String → String) (result : List viewer) : Except GoError String :=
  .ok ("[" ++ String.intercalate "," (result.map (marshalViewer quote)) ++ "]")

/-- Lines 190-193 of `audienceRequest`: the slice `result` collected by ranging over the
map. -/
def audienceResult (env : Env) (viewers : ViewerMap) : List viewer :=
  (env.rangeOrder viewers).foldl (fun result e => result ++ [e.2]) []

/-- Embedding of `audienceRequest`; `channel` is `mux.Vars(r)["channel"]`. -/
def audienceRequest (env : Env) (channel : String) (w : ResponseWriter) : ResponseWriter :=
  match getChatters env channel with
  | .error _ =>
    match marshalResponse { Status := 500 } with
    | .error err => httpError w err 500
    | .ok js => (w.setHeader "Content-Type" "application/json").write js
  | .ok viewers =>
    let result := audienceResult env viewers
    match marshalViewers env.jsonQuote result with
    | .error err => httpError w err 500
    | .ok js => (w.setHeader "Content-Type" "application/json").write js

/-! ## Vocabulary of the specification -/

/-- The six role buckets of the chatter document. -/
inductive Bucket where
  | vips
  | moderators
  | staff
  | admins
  | global_mods
  | viewers
  deriving DecidableEq, Repr

/-- The list of names the document holds for a bucket. -/
def ChatterLists.bucket (c : ChatterLists) : Bucket → List String
  | .vips => c.Vips
  | .moderators => c.Moderators
  | .staff => c.Staff
  | .admins => c.Admins
  | .global_mods => c.GlobalMods
  | .viewers => c.Viewers

/-- Position of a bucket in the fixed processing order. -/
def Bucket.index : Bucket → Nat
  | .vips => 0
  | .moderators => 1
  | .staff => 2
  | .admins => 3
  | .global_mods => 4
  | .viewers => 5

/-- Every occurrence of a name, tagged with its bucket, in the order in which the buckets
are processed: vips, moderators, staff, admins, global_mods, viewers, and inside a bucket in
list order. -/
def writeLog (c : ChatterLists) : List (Bucket × String) :=
  c.Vips.map (fun n => (Bucket.vips, n)) ++
  (c.Moderators.map (fun n => (Bucket.moderators, n)) ++
  (c.Staff.map (fun n => (Bucket.staff, n)) ++
  (c.Admins.map (fun n => (Bucket.admins, n)) ++
  (c.GlobalMods.map (fun n => (Bucket.global_mods, n)) ++
  c.Viewers.map (fun n => (Bucket.viewers, n))))))

/-- All input names, bucket after bucket. -/
def allNames (c : ChatterLists) : List String :=
  c.Vips ++ (c.Moderators ++ (c.Staff ++ (c.Admins ++ (c.GlobalMods ++ c.Viewers))))

/-- The last occurrence, in processing order, of a name whose lowercased form is `key`. -/
def lastWriteIn (toLower : String → String) (ws : List (Bucket × String)) (key : String) :
    Option (Bucket × String) :=
  ws.reverse.find? (fun w => decide (toLower w.2 = key))

/-- The winning occurrence for `key` in a document: its bucket and its name as written. -/
def lastWrite (toLower : String → String) (c : ChatterLists) (key : String) :
    Option (Bucket × String) :=
  lastWriteIn toLower (writeLog c) key

/-- The `IsMod` literal of the loop of each bucket (main.go lines 110, 121, 132, 143, 154,
165). -/
def Bucket.isModLiteral : Bucket → Bool
  | .vips => false
  | .moderators => true
  | .staff => false
  | .admins => true
  | .global_mods => true
  | .viewers => false

/-- The record the loop of bucket `b` writes for the name `n`. -/
def writtenRecord (b : Bucket) (n : String) : viewer :=
  { Name := n, IsMod := b.isModLiteral, IsFollower := true, InChat := true }

/-- The six loops seen as one pass over the write log. -/
def applyWrites (toLower : String → String) (ws : List (Bucket × String)) (m : ViewerMap) :
    ViewerMap :=
  ws.foldl (fun m w => m.assign (toLower w.2) (writtenRecord w.1 w.2)) m

/-! ## Concrete inputs -/

/-- Lowercasing of the ASCII letters, a possible behaviour of `strings.ToLower` on ASCII
names. -/
def asciiLower (s : String) : String :=
  String.mk (s.data.map Char.toLower)

/-- A document with the name `bob` in two buckets under different capitalisation. -/
def sampleLists : ChatterLists :=
  { Vips := ["Bob"], Moderators := ["alice"], Staff := [], Admins := [],
    GlobalMods := [], Viewers := ["BOB", "carol"] }

/-- A document whose only chatter is a staff member. -/
def staffOnly : ChatterLists :=
  { Vips := [], Moderators := [], Staff := ["Bob"], Admins := [], GlobalMods := [],
    Viewers := [] }

/-- The record the moderators loop writes for `alice`. -/
def aliceRecord : viewer :=
  { Name := "alice", InChat := true, IsFollower := true, IsMod := true }

/-- The record the viewers loop writes for `BOB`. -/
def viewerBobRecord : viewer :=
  { Name := "BOB", InChat := true, IsFollower := true, IsMod := false }

/-- The record the staff loop writes for `Bob`. -/
def staffBobRecord : viewer :=
  { Name := "Bob", InChat := true, IsFollower := true, IsMod := false }

/-- A document with all six lists empty, as decoded from `{"chatters":{}}`. -/
def emptyLists : ChatterLists :=
  { Vips := [], Moderators := [], Staff := [], Admins := [], GlobalMods := [], Viewers := [] }

/-- An environment for a given upstream reply: ASCII lowercasing, a fetch that returns
`reply` for every URL, a decoder that accepts exactly the body `{"chatters":{}}`, a string
encoder that only adds the quotes, and iteration in storage order. -/
def sampleEnv (reply : Except GoError String) : Env :=
  { toLower := asciiLower
    httpGet := fun _ => reply
    jsonUnmarshal := fun body =>
      if body = "\x7b\"chatters\":\x7b\x7d\x7d" then .ok { Chatters := emptyLists }
      else .error "invalid character"
    jsonQuote := fun s => "\"" ++ s ++ "\""
    rangeOrder := fun m => m }

/-- A body listing the chatters of `sampleLists`. -/
def sampleBody : String :=
  "\x7b\"chatters\":\x7b\"vips\":[\"Bob\"],\"moderators\":[\"alice\"]," ++
    "\"viewers\":[\"BOB\",\"carol\"]\x7d\x7d"

/-- An environment whose upstream always replies with `sampleBody`: ASCII lowercasing, a
decoder that reads `sampleBody` as `sampleLists` and rejects every other body, a string
encoder that only adds the quotes, and iteration in storage order. -/
def listingEnv : Env :=
  { toLower := asciiLower
    httpGet := fun _ => .ok sampleBody
    jsonUnmarshal := fun body =>
      if body = sampleBody then .ok { Chatters := sampleLists }
      else .error "invalid character"
    jsonQuote := fun s => "\"" ++ s ++ "\""
    rangeOrder := fun m => m }

/-! ## Theorems: rateLimitCallback -/

/-- C5: whenever the remaining quota is positive, whatever the reset timestamp and the
clock, `rateLimitCallback` does not call `Sleep` (the requested wait is zero) and returns a
nil error. -/
theorem rateLimitCallback_quota_left (remaining reset now : Int) (h : remaining > 0) :
    (rateLimitCallback remaining reset now).slept = none ∧
    (rateLimitCallback remaining reset now).requested = 0 ∧
    (rateLimitCallback remaining reset now).err = none := by
  simp [rateLimitCallback, h, CallbackOutcome.requested]

/-- Witness of C5 at remaining = 3, reset = 1700000060, now = 1700000000. -/
theorem rateLimitCallback_quota_left_witness :
    (3 : Int) > 0 ∧
    (rateLimitCallback 3 1700000060 1700000000).slept = none ∧
    (rateLimitCallback 3 1700000060 1700000000).requested = 0 ∧
    (rateLimitCallback 3 1700000060 1700000000).err = none :=
  ⟨by decide, rateLimitCallback_quota_left 3 1700000060 1700000000 (by decide)⟩

/-- C6: for every remaining quota (zero and negative included) and every reset timestamp
that is not after the clock, `rateLimitCallback` does not call `Sleep` and returns a nil
error. -/
theorem rateLimitCallback_reset_passed (remaining reset now : Int) (h : reset ≤ now) :
    (rateLimitCallback remaining reset now).slept = none ∧
    (rateLimitCallback remaining reset now).requested = 0 ∧
    (rateLimitCallback remaining reset now).err = none := by
  have hn : ¬ now < reset := not_lt.mpr h
  by_cases hr : remaining > 0 <;> simp [rateLimitCallback, hr, hn, CallbackOutcome.requested]

/-- Witness of C6 at remaining = 0, reset = 1699999990, now = 1700000000. -/
theorem rateLimitCallback_reset_passed_witness :
    (1699999990 : Int) ≤ 1700000000 ∧
    (rateLimitCallback 0 1699999990 1700000000).slept = none ∧
    (rateLimitCallback 0 1699999990 1700000000).requested = 0 ∧
    (rateLimitCallback 0 1699999990 1700000000).err = none :=
  ⟨by decide, rateLimitCallback_reset_passed 0 1699999990 1700000000 (by decide)⟩

/-- C4 as stated fails: with remaining = 0, now = 1700000000 and the reset 9223372037
seconds ahead (all `int64` values), the product with `time.Second` wraps and `Sleep` is
called with -9223372036709551616 ns instead of 9223372037 * 1000000000 ns. -/
theorem rateLimitCallback_sleep_overflow :
    ¬ (∀ reset now T : Int, inInt64 reset → inInt64 now → 0 < T → reset = now + T →
        (rateLimitCallback 0 reset now).requested = T * 1000000000 ∧
        (rateLimitCallback 0 reset now).err = none) := by
  intro h
  have h1 := (h 10923372037 1700000000 9223372037 (by decide) (by decide) (by decide)
    (by decide)).1
  revert h1
  decide

/-- C4 amended: with remaining = 0 and the reset T seconds ahead of the clock, for
0 < T ≤ 9223372036 (the largest number of seconds a `time.Duration` holds), `Sleep` is
called with exactly T * 1000000000 ns and the callback returns a nil error. -/
theorem rateLimitCallback_sleeps_until_reset (reset now T : Int) (hT : 0 < T)
    (hmax : T ≤ 9223372036) (hreset : reset = now + T) :
    (rateLimitCallback 0 reset now).slept = some (T * 1000000000) ∧
    (rateLimitCallback 0 reset now).requested = T * 1000000000 ∧
    (rateLimitCallback 0 reset now).err = none := by
  have hlt : now < reset := by omega
  have hdiff : wrapInt64 (reset - now) = T := by
    unfold wrapInt64; omega
  have hprod : wrapInt64 (T * Second) = T * 1000000000 := by
    unfold wrapInt64 Second; omega
  simp [rateLimitCallback, hlt, hdiff, hT, hprod, CallbackOutcome.requested]

/-- Witness of the amended C4 at now = 1700000000, T = 60. -/
theorem rateLimitCallback_sleeps_until_reset_witness :
    (0 : Int) < 60 ∧ (60 : Int) ≤ 9223372036 ∧ (1700000060 : Int) = 1700000000 + 60 ∧
    (rateLimitCallback 0 1700000060 1700000000).slept = some (60 * 1000000000) ∧
    (rateLimitCallback 0 1700000060 1700000000).requested = 60 * 1000000000 ∧
    (rateLimitCallback 0 1700000060 1700000000).err = none :=
  ⟨by decide, by decide, by decide,
    rateLimitCallback_sleeps_until_reset 1700000060 1700000000 60 (by decide) (by decide)
      (by decide)⟩

/-! ## Lemmas: the map model -/

theorem get?_assign_self (m : ViewerMap) (key : String) (v : viewer) :
    (m.assign key v).get? key = some v := by
  induction m with
  | nil => simp [ViewerMap.assign, ViewerMap.get?]
  | cons e rest ih =>
    obtain ⟨k, old⟩ := e
    by_cases hk : k = key
    · simp [ViewerMap.assign, ViewerMap.get?, hk]
    · simp [ViewerMap.assign, ViewerMap.get?, hk, ih]

theorem get?_assign_ne (m : ViewerMap) (key other : String) (v : viewer) (h : other ≠ key) :
    (m.assign key v).get? other = m.get? other := by
  induction m with
  | nil =>
    have h2 : ¬ key = other := fun e => h e.symm
    simp [ViewerMap.assign, ViewerMap.get?, h2]
  | cons e rest ih =>
    obtain ⟨k, old⟩ := e
    by_cases hk : k = key
    · have h2 : ¬ key = other := fun e => h e.symm
      subst hk
      simp [ViewerMap.assign, ViewerMap.get?, h2]
    · by_cases hko : k = other
      · subst hko
        simp [ViewerMap.assign, ViewerMap.get?, hk]
      · simp [ViewerMap.assign, ViewerMap.get?, hk, hko, ih]

theorem mem_keys_assign (m : ViewerMap) (key other : String) (v : viewer) :
    other ∈ (m.assign key v).keys ↔ other = key ∨ other ∈ m.keys := by
  induction m with
  | nil => simp [ViewerMap.assign, ViewerMap.keys]
  | cons e rest ih =>
    obtain ⟨k, old⟩ := e
    simp only [ViewerMap.keys] at ih
    by_cases hk : k = key
    · subst hk
      simp [ViewerMap.assign, ViewerMap.keys]
    · simp only [ViewerMap.assign, hk, ViewerMap.keys, if_false, List.map_cons, List.mem_cons,
        ih]
      tauto

theorem nodup_keys_assign (m : ViewerMap) (key : String) (v : viewer)
    (h : m.keys.Nodup) : (m.assign key v).keys.Nodup := by
  induction m with
  | nil => simp [ViewerMap.assign, ViewerMap.keys]
  | cons e rest ih =>
    obtain ⟨k, old⟩ := e
    simp only [ViewerMap.keys, List.map_cons, List.nodup_cons] at h
    by_cases hk : k = key
    · subst hk
      simpa [ViewerMap.assign, ViewerMap.keys] using h
    · have hrest := ih h.2
      have hnot : k ∉ (ViewerMap.assign rest key v).keys := by
        rw [mem_keys_assign]
        intro hmem
        rcases hmem with hmem | hmem
        · exact hk hmem
        · exact h.1 hmem
      simp only [ViewerMap.assign, hk, if_false, ViewerMap.keys, List.map_cons,
        List.nodup_cons]
      exact ⟨hnot, hrest⟩

theorem mem_assign (m : ViewerMap) (key : String) (v : viewer) (e : String × viewer)
    (h : e ∈ m.assign key v) : e = (key, v) ∨ e ∈ m := by
  induction m with
  | nil => simpa [ViewerMap.assign] using h
  | cons e0 rest ih =>
    obtain ⟨k, old⟩ := e0
    by_cases hk : k = key
    · simp only [ViewerMap.assign, hk, if_true, List.mem_cons] at h
      rcases h with h | h
      · exact Or.inl h
      · exact Or.inr (List.mem_cons_of_mem _ h)
    · simp only [ViewerMap.assign, hk, if_false, List.mem_cons] at h
      rcases h with h | h
      · exact Or.inr (by simp [h])
      · rcases ih h with h2 | h2
        · exact Or.inl h2
        · exact Or.inr (List.mem_cons_of_mem _ h2)

theorem length_assign_le (m : ViewerMap) (key : String) (v : viewer) :
    (m.assign key v).length ≤ m.length + 1 := by
  induction m with
  | nil => simp [ViewerMap.assign]
  | cons e rest ih =>
    obtain ⟨k, old⟩ := e
    by_cases hk : k = key
    · simp [ViewerMap.assign, hk]
    · simp only [ViewerMap.assign, hk, if_false, List.length_cons]
      omega

theorem get?_eq_none_of_not_mem_keys (m : ViewerMap) (key : String) (h : key ∉ m.keys) :
    m.get? key = none := by
  induction m with
  | nil => simp [ViewerMap.get?]
  | cons e rest ih =>
    obtain ⟨k, old⟩ := e
    simp only [ViewerMap.keys, List.map_cons, List.mem_cons, not_or] at h
    have hk : ¬ k = key := fun e => h.1 e.symm
    simp only [ViewerMap.get?, hk, if_false]
    exact ih h.2

theorem entriesAt_of_not_mem_keys (m : ViewerMap) (key : String) (h : key ∉ m.keys) :
    m.entriesAt key = [] := by
  induction m with
  | nil => simp [ViewerMap.entriesAt]
  | cons e rest ih =>
    obtain ⟨k, old⟩ := e
    simp only [ViewerMap.keys, List.map_cons, List.mem_cons, not_or] at h
    have hk : ¬ k = key := fun e => h.1 e.symm
    have hrest := ih h.2
    simp only [ViewerMap.entriesAt] at hrest
    simp [ViewerMap.entriesAt, hk, hrest]

theorem entriesAt_of_get? (m : ViewerMap) (key : String) (v : viewer)
    (hnd : m.keys.Nodup) (h : m.get? key = some v) : m.entriesAt key = [(key, v)] := by
  induction m with
  | nil => simp [ViewerMap.get?] at h
  | cons e rest ih =>
    obtain ⟨k, old⟩ := e
    simp only [ViewerMap.keys, List.map_cons, List.nodup_cons] at hnd
    by_cases hk : k = key
    · subst hk
      simp only [ViewerMap.get?, if_true, Option.some.injEq] at h
      subst h
      have hrest := entriesAt_of_not_mem_keys rest k hnd.1
      simp only [ViewerMap.entriesAt] at hrest
      simp [ViewerMap.entriesAt, hrest]
    · simp only [ViewerMap.get?, hk, if_false] at h
      have hrest := ih hnd.2 h
      simp only [ViewerMap.entriesAt] at hrest
      simp [ViewerMap.entriesAt, hk, hrest]

theorem mem_of_get? (m : ViewerMap) (key : String) (v : viewer) (h : m.get? key = some v) :
    (key, v) ∈ m := by
  induction m with
  | nil => simp [ViewerMap.get?] at h
  | cons e rest ih =>
    obtain ⟨k, old⟩ := e
    by_cases hk : k = key
    · simp only [ViewerMap.get?, hk, if_true, Option.some.injEq] at h
      simp [hk, h]
    · simp only [ViewerMap.get?, hk, if_false] at h
      exact List.mem_cons_of_mem _ (ih h)

/-! ## Lemmas: the six loops as one pass over the write log -/

theorem mergeChatters_eq_applyWrites (toLower : String → String) (c : ChatterLists) :
    mergeChatters toLower c = applyWrites toLower (writeLog c) [] := by
  simp [mergeChatters, applyWrites, writeLog, List.foldl_append, List.foldl_map,
    writtenRecord, Bucket.isModLiteral]

theorem applyWrites_snoc (toLower : String → String) (ws : List (Bucket × String))
    (w : Bucket × String) (m : ViewerMap) :
    applyWrites toLower (ws ++ [w]) m =
      (applyWrites toLower ws m).assign (toLower w.2) (writtenRecord w.1 w.2) := by
  simp [applyWrites, List.foldl_append]

theorem lastWriteIn_snoc (toLower : String → String) (ws : List (Bucket × String))
    (w : Bucket × String) (key : String) :
    lastWriteIn toLower (ws ++ [w]) key =
      if toLower w.2 = key then some w else lastWriteIn toLower ws key := by
  by_cases h : toLower w.2 = key <;> simp [lastWriteIn, List.find?, h]

theorem nodup_keys_applyWrites (toLower : String → String) (ws : List (Bucket × String))
    (m : ViewerMap) (h : m.keys.Nodup) : (applyWrites toLower ws m).keys.Nodup := by
  induction ws using List.reverseRecOn with
  | nil => simpa [applyWrites] using h
  | append_singleton ws w ih =>
    rw [applyWrites_snoc]
    exact nodup_keys_assign _ _ _ ih

theorem get?_applyWrites (toLower : String → String) (ws : List (Bucket × String))
    (m : ViewerMap) (key : String) :
    (applyWrites toLower ws m).get? key =
      match lastWriteIn toLower ws key with
      | some w => some (writtenRecord w.1 w.2)
      | none => m.get? key := by
  induction ws using List.reverseRecOn with
  | nil => simp [applyWrites, lastWriteIn]
  | append_singleton ws w ih =>
    rw [applyWrites_snoc, lastWriteIn_snoc]
    by_cases h : toLower w.2 = key
    · simp only [h, if_true]
      exact get?_assign_self _ _ _
    · simp only [h, if_false]
      rw [get?_assign_ne _ _ _ _ (fun e => h e.symm)]
      exact ih

theorem mem_keys_applyWrites (toLower : String → String) (ws : List (Bucket × String))
    (m : ViewerMap) (key : String) :
    key ∈ (applyWrites toLower ws m).keys ↔
      key ∈ m.keys ∨ ∃ w ∈ ws, toLower w.2 = key := by
  induction ws using List.reverseRecOn with
  | nil => simp [applyWrites]
  | append_singleton ws w ih =>
    rw [applyWrites_snoc, mem_keys_assign, ih]
    constructor
    · rintro (h | h | ⟨w0, hw0, hk⟩)
      · exact Or.inr ⟨w, by simp, h.symm⟩
      · exact Or.inl h
      · exact Or.inr ⟨w0, by simp [hw0], hk⟩
    · rintro (h | ⟨w0, hw0, hk⟩)
      · exact Or.inr (Or.inl h)
      · rcases List.mem_append.mp hw0 with h1 | h1
        · exact Or.inr (Or.inr ⟨w0, h1, hk⟩)
        · simp only [List.mem_singleton] at h1
          subst h1
          exact Or.inl hk.symm

theorem mem_applyWrites (toLower : String → String) (ws : List (Bucket × String))
    (m : ViewerMap) (e : String × viewer) (h : e ∈ applyWrites toLower ws m) :
    e ∈ m ∨ ∃ w ∈ ws, e = (toLower w.2, writtenRecord w.1 w.2) := by
  induction ws using List.reverseRecOn with
  | nil => exact Or.inl (by simpa [applyWrites] using h)
  | append_singleton ws w ih =>
    rw [applyWrites_snoc] at h
    rcases mem_assign _ _ _ _ h with h1 | h1
    · exact Or.inr ⟨w, by simp, h1⟩
    · rcases ih h1 with h2 | ⟨w0, hw0, he⟩
      · exact Or.inl h2
      · exact Or.inr ⟨w0, by simp [hw0], he⟩

theorem length_applyWrites_le (toLower : String → String) (ws : List (Bucket × String))
    (m : ViewerMap) : (applyWrites toLower ws m).length ≤ m.length + ws.length := by
  induction ws using List.reverseRecOn with
  | nil => simp [applyWrites]
  | append_singleton ws w ih =>
    rw [applyWrites_snoc]
    have h := length_assign_le (applyWrites toLower ws m) (toLower w.2)
      (writtenRecord w.1 w.2)
    simp only [List.length_append, List.length_singleton]
    omega

theorem lastWriteIn_split (toLower : String → String) (ws : List (Bucket × String))
    (key : String) (w : Bucket × String) (h : lastWriteIn toLower ws key = some w) :
    toLower w.2 = key ∧
      ∃ pre post, ws = pre ++ w :: post ∧ ∀ x ∈ post, toLower x.2 ≠ key := by
  unfold lastWriteIn at h
  rw [List.find?_eq_some] at h
  obtain ⟨hp, as, bs, hsplit, hno⟩ := h
  refine ⟨by simpa using hp, bs.reverse, as.reverse, ?_, ?_⟩
  · have h2 := congrArg List.reverse hsplit
    simpa using h2
  · intro x hx
    have h3 := hno x (List.mem_reverse.mp hx)
    simpa using h3

theorem lastWriteIn_of_mem (toLower : String → String) (ws : List (Bucket × String))
    (key : String) (w : Bucket × String) (hw : w ∈ ws) (hk : toLower w.2 = key) :
    ∃ w0, lastWriteIn toLower ws key = some w0 := by
  cases hfind : lastWriteIn toLower ws key with
  | some w0 => exact ⟨w0, rfl⟩
  | none =>
    unfold lastWriteIn at hfind
    rw [List.find?_eq_none] at hfind
    have h2 := hfind w (List.mem_reverse.mpr hw)
    simp [hk] at h2

theorem lastWriteIn_none (toLower : String → String) (ws : List (Bucket × String))
    (key : String) (h : lastWriteIn toLower ws key = none) :
    ∀ w ∈ ws, toLower w.2 ≠ key := by
  unfold lastWriteIn at h
  rw [List.find?_eq_none] at h
  intro w hw
  have h2 := h w (List.mem_reverse.mpr hw)
  simpa using h2

theorem mem_writeLog (c : ChatterLists) (b : Bucket) (n : String) :
    (b, n) ∈ writeLog c ↔ n ∈ c.bucket b := by
  cases b <;> simp [writeLog, ChatterLists.bucket]

theorem map_snd_writeLog (c : ChatterLists) : (writeLog c).map Prod.snd = allNames c := by
  simp [writeLog, allNames, Function.comp_def]

theorem length_writeLog (c : ChatterLists) : (writeLog c).length = (allNames c).length := by
  rw [← map_snd_writeLog, List.length_map]

theorem writeLog_sorted (c : ChatterLists) :
    (writeLog c).Pairwise (fun x y => x.1.index ≤ y.1.index) := by
  have hconst : ∀ (b : Bucket) (l : List String),
      (l.map (fun n => (b, n))).Pairwise (fun x y => x.1.index ≤ y.1.index) := by
    intro b l
    rw [List.pairwise_map]
    exact List.pairwise_of_forall (fun _ _ => Nat.le_refl _)
  simp only [writeLog, List.pairwise_append, hconst, true_and, List.mem_append, List.mem_map]
  simp only [Bucket.index]
  repeat apply And.intro
  all_goals
    rintro _ ⟨_, -, rfl⟩ _ hy
    aesop

theorem get?_of_mem (m : ViewerMap) (key : String) (v : viewer) (hnd : m.keys.Nodup)
    (h : (key, v) ∈ m) : m.get? key = some v := by
  induction m with
  | nil => simp at h
  | cons e rest ih =>
    obtain ⟨k, old⟩ := e
    simp only [ViewerMap.keys, List.map_cons, List.nodup_cons] at hnd
    simp only [List.mem_cons, Prod.mk.injEq] at h
    rcases h with ⟨hk, hv⟩ | h
    · simp [ViewerMap.get?, hk, hv]
    · have hne : ¬ k = key := by
        intro hk
        apply hnd.1
        rw [hk]
        exact List.mem_map_of_mem Prod.fst h
      simp only [ViewerMap.get?, hne, if_false]
      exact ih hnd.2 h

theorem nodup_keys_mergeChatters (toLower : String → String) (c : ChatterLists) :
    (mergeChatters toLower c).keys.Nodup := by
  rw [mergeChatters_eq_applyWrites]
  exact nodup_keys_applyWrites toLower (writeLog c) [] (by simp [ViewerMap.keys])

theorem get?_mergeChatters_of_lastWrite (toLower : String → String) (c : ChatterLists)
    (key : String) (w : Bucket × String) (h : lastWrite toLower c key = some w) :
    (mergeChatters toLower c).get? key = some (writtenRecord w.1 w.2) := by
  unfold lastWrite at h
  rw [mergeChatters_eq_applyWrites, get?_applyWrites, h]

theorem lastWrite_of_mem_mergeChatters (toLower : String → String) (c : ChatterLists)
    (key : String) (v : viewer) (h : (key, v) ∈ mergeChatters toLower c) :
    ∃ w, lastWrite toLower c key = some w ∧ v = writtenRecord w.1 w.2 := by
  have hget := get?_of_mem _ key v (nodup_keys_mergeChatters toLower c) h
  cases hw : lastWrite toLower c key with
  | some w =>
    rw [get?_mergeChatters_of_lastWrite toLower c key w hw] at hget
    exact ⟨w, rfl, (Option.some.inj hget).symm⟩
  | none =>
    unfold lastWrite at hw
    rw [mergeChatters_eq_applyWrites, get?_applyWrites, hw] at hget
    simp [ViewerMap.get?] at hget

theorem index_le_of_split (c : ChatterLists) (pre post : List (Bucket × String))
    (w x : Bucket × String) (hsplit : writeLog c = pre ++ w :: post) (hx : x ∈ writeLog c)
    (hpost : x ∉ post) : x.1.index ≤ w.1.index := by
  have hsorted := writeLog_sorted c
  rw [hsplit] at hsorted hx
  rw [List.pairwise_append] at hsorted
  rcases List.mem_append.mp hx with h | h
  · exact hsorted.2.2 x h w (by simp)
  · rcases List.mem_cons.mp h with h | h
    · rw [h]
    · exact absurd h hpost

theorem audienceResult_eq_map (env : Env) (viewers : ViewerMap) :
    audienceResult env viewers = (env.rangeOrder viewers).map Prod.snd := by
  have hgen : ∀ (l : List (String × viewer)) (acc : List viewer),
      l.foldl (fun result e => result ++ [e.2]) acc = acc ++ l.map Prod.snd := by
    intro l
    induction l with
    | nil => intro acc; simp
    | cons e rest ih => intro acc; simp [List.foldl, ih]
  simpa [audienceResult] using hgen (env.rangeOrder viewers) []

/-! ## Theorems: getChatters and audienceRequest -/

/-- A successful `getChatters` returns the result of the six loops on the decoded lists, and
it succeeds exactly when the fetch and the decoding both do. -/
theorem getChatters_ok_iff (env : Env) (channel : String) (m : ViewerMap) :
    getChatters env channel = .ok m ↔
      ∃ body tmp, env.httpGet (tmiBase ++ channel ++ chatters) = .ok body ∧
        env.jsonUnmarshal body = .ok tmp ∧ m = mergeChatters env.toLower tmp.Chatters := by
  unfold getChatters
  cases hf : env.httpGet (tmiBase ++ channel ++ chatters) with
  | error e => simp
  | ok body =>
    cases hd : env.jsonUnmarshal body with
    | error e => simp [hd]
    | ok tmp =>
      simp only [hd]
      constructor
      · intro h
        exact ⟨body, tmp, rfl, hd, (Except.ok.inj h).symm⟩
      · rintro ⟨body2, tmp2, h1, h2, h3⟩
        cases h1
        rw [hd] at h2
        cases h2
        rw [h3]

/-- Evaluation of the six loops on `sampleLists` under ASCII lowercasing: `Bob` (vips) and
`BOB` (viewers) share the key `bob`, and the viewers record is the one stored. -/
theorem mergeChatters_sampleLists :
    mergeChatters asciiLower sampleLists =
      [("bob", { Name := "BOB", InChat := true, IsFollower := true, IsMod := false }),
       ("alice", { Name := "alice", InChat := true, IsFollower := true, IsMod := true }),
       ("carol", { Name := "carol", InChat := true, IsFollower := true, IsMod := false })] := by
  decide

/-- C1: when two names with the same lowercased form occur in two different buckets, the
map built by the six loops holds exactly one entry under that key, and the entry is the full
record written for the occurrence that comes last in the processing order (vips, moderators,
staff, admins, global_mods, viewers): its bucket is not before either of the two buckets and
is after at least one of them, no later occurrence has the key, and nothing of an earlier
record remains. -/
theorem mergeChatters_last_write_wins (toLower : String → String) (c : ChatterLists)
    (b₁ b₂ : Bucket) (n₁ n₂ : String) (hb : b₁ ≠ b₂)
    (h₁ : n₁ ∈ c.bucket b₁) (h₂ : n₂ ∈ c.bucket b₂) (hk : toLower n₁ = toLower n₂) :
    ∃ b n pre post,
      writeLog c = pre ++ (b, n) :: post ∧
      toLower n = toLower n₁ ∧
      (∀ w ∈ post, toLower w.2 ≠ toLower n₁) ∧
      b₁.index ≤ b.index ∧ b₂.index ≤ b.index ∧
      (b₁.index < b.index ∨ b₂.index < b.index) ∧
      (mergeChatters toLower c).entriesAt (toLower n₁) =
        [(toLower n₁,
          { Name := n, IsMod := b.isModLiteral, IsFollower := true, InChat := true })] := by
  have hm₁ : (b₁, n₁) ∈ writeLog c := (mem_writeLog c b₁ n₁).mpr h₁
  have hm₂ : (b₂, n₂) ∈ writeLog c := (mem_writeLog c b₂ n₂).mpr h₂
  obtain ⟨w, hw⟩ := lastWriteIn_of_mem toLower (writeLog c) (toLower n₁) (b₁, n₁) hm₁ rfl
  obtain ⟨hkey, pre, post, hsplit, hpost⟩ := lastWriteIn_split toLower _ _ w hw
  have hget := get?_mergeChatters_of_lastWrite toLower c (toLower n₁) w hw
  have hentries := entriesAt_of_get? _ _ _ (nodup_keys_mergeChatters toLower c) hget
  have hi₁ : b₁.index ≤ w.1.index :=
    index_le_of_split c pre post w (b₁, n₁) hsplit hm₁ (fun h => hpost _ h rfl)
  have hi₂ : b₂.index ≤ w.1.index :=
    index_le_of_split c pre post w (b₂, n₂) hsplit hm₂ (fun h => hpost _ h hk.symm)
  have hne : b₁.index ≠ b₂.index := by
    intro h
    apply hb
    cases b₁ <;> cases b₂ <;> simp [Bucket.index] at h <;> rfl
  have hlt : b₁.index < w.1.index ∨ b₂.index < w.1.index := by omega
  exact ⟨w.1, w.2, pre, post, hsplit, hkey, hpost, hi₁, hi₂, hlt, hentries⟩

/-- Witness of C1 on `sampleLists`: `Bob` in vips and `BOB` in viewers. -/
theorem mergeChatters_last_write_wins_witness :
    (Bucket.vips ≠ Bucket.viewers ∧ "Bob" ∈ sampleLists.bucket Bucket.vips ∧
      "BOB" ∈ sampleLists.bucket Bucket.viewers ∧ asciiLower "Bob" = asciiLower "BOB") ∧
    ∃ b n pre post,
      writeLog sampleLists = pre ++ (b, n) :: post ∧
      asciiLower n = asciiLower "Bob" ∧
      (∀ w ∈ post, asciiLower w.2 ≠ asciiLower "Bob") ∧
      Bucket.vips.index ≤ b.index ∧ Bucket.viewers.index ≤ b.index ∧
      (Bucket.vips.index < b.index ∨ Bucket.viewers.index < b.index) ∧
      (mergeChatters asciiLower sampleLists).entriesAt (asciiLower "Bob") =
        [(asciiLower "Bob",
          { Name := n, IsMod := b.isModLiteral, IsFollower := true, InChat := true })] :=
  ⟨⟨by decide, by decide, by decide, by decide⟩,
    mergeChatters_last_write_wins asciiLower sampleLists Bucket.vips Bucket.viewers
      "Bob" "BOB" (by decide) (by decide) (by decide) (by decide)⟩

/-- C2 as stated fails: in `staffOnly` the only entry, under the key `bob`, was written by
the staff loop, and its `IsMod` is false. -/
theorem isMod_staff_not_true :
    ¬ (∀ (toLower : String → String) (c : ChatterLists) (key : String) (v : viewer)
        (b : Bucket) (n : String),
        (key, v) ∈ mergeChatters toLower c → lastWrite toLower c key = some (b, n) →
        ((b = Bucket.moderators ∨ b = Bucket.staff ∨ b = Bucket.admins ∨
            b = Bucket.global_mods) → v.IsMod = true) ∧
        ((b = Bucket.vips ∨ b = Bucket.viewers) → v.IsMod = false)) := by
  intro h
  have h1 := (h asciiLower staffOnly "bob" staffBobRecord
    Bucket.staff "Bob" (by decide) (by decide)).1 (Or.inr (Or.inl rfl))
  exact absurd h1 (by decide)

/-- C2 amended: every entry of the map has a winning (last-written) occurrence; when its
bucket is moderators, admins or global_mods the entry has IsMod = true, and when it is vips,
staff or viewers the entry has IsMod = false. -/
theorem isMod_by_winning_bucket (toLower : String → String) (c : ChatterLists)
    (key : String) (v : viewer) (h : (key, v) ∈ mergeChatters toLower c) :
    ∃ b n, lastWrite toLower c key = some (b, n) ∧ v.Name = n ∧
      ((b = Bucket.moderators ∨ b = Bucket.admins ∨ b = Bucket.global_mods) →
        v.IsMod = true) ∧
      ((b = Bucket.vips ∨ b = Bucket.staff ∨ b = Bucket.viewers) → v.IsMod = false) := by
  obtain ⟨w, hw, hv⟩ := lastWrite_of_mem_mergeChatters toLower c key v h
  refine ⟨w.1, w.2, hw, by rw [hv]; rfl, ?_, ?_⟩
  · rintro (hb | hb | hb) <;> rw [hv] <;> simp [writtenRecord, hb, Bucket.isModLiteral]
  · rintro (hb | hb | hb) <;> rw [hv] <;> simp [writtenRecord, hb, Bucket.isModLiteral]

/-- Witness of the amended C2 on the entry `alice` of `sampleLists`. -/
theorem isMod_by_winning_bucket_witness :
    ("alice", aliceRecord) ∈ mergeChatters asciiLower sampleLists ∧
    ∃ b n, lastWrite asciiLower sampleLists "alice" = some (b, n) ∧ aliceRecord.Name = n ∧
      ((b = Bucket.moderators ∨ b = Bucket.admins ∨ b = Bucket.global_mods) →
        aliceRecord.IsMod = true) ∧
      ((b = Bucket.vips ∨ b = Bucket.staff ∨ b = Bucket.viewers) →
        aliceRecord.IsMod = false) :=
  ⟨by decide, isMod_by_winning_bucket asciiLower sampleLists "alice" aliceRecord
    (by decide)⟩

/-- C3: every entry of the map has a winning (last-written) occurrence; when its bucket is
staff the entry has IsMod = false, and when it is moderators, admins or global_mods the
entry has IsMod = true. -/
theorem isMod_staff_false (toLower : String → String) (c : ChatterLists)
    (key : String) (v : viewer) (h : (key, v) ∈ mergeChatters toLower c) :
    ∃ b n, lastWrite toLower c key = some (b, n) ∧
      (b = Bucket.staff → v.IsMod = false) ∧
      ((b = Bucket.moderators ∨ b = Bucket.admins ∨ b = Bucket.global_mods) →
        v.IsMod = true) := by
  obtain ⟨w, hw, hv⟩ := lastWrite_of_mem_mergeChatters toLower c key v h
  refine ⟨w.1, w.2, hw, ?_, ?_⟩
  · intro hb
    rw [hv]
    simp [writtenRecord, hb, Bucket.isModLiteral]
  · rintro (hb | hb | hb) <;> rw [hv] <;> simp [writtenRecord, hb, Bucket.isModLiteral]

/-- Witness of C3 on the single staff entry of `staffOnly`. -/
theorem isMod_staff_false_witness :
    ("bob", staffBobRecord) ∈ mergeChatters asciiLower staffOnly ∧
    ∃ b n, lastWrite asciiLower staffOnly "bob" = some (b, n) ∧
      (b = Bucket.staff → staffBobRecord.IsMod = false) ∧
      ((b = Bucket.moderators ∨ b = Bucket.admins ∨ b = Bucket.global_mods) →
        staffBobRecord.IsMod = true) :=
  ⟨by decide, isMod_staff_false asciiLower staffOnly "bob" staffBobRecord (by decide)⟩

/-- C7: every entry of the map built by the six loops has InChat = true and
IsFollower = true, whichever bucket wrote it. -/
theorem inChat_isFollower_always (toLower : String → String) (c : ChatterLists)
    (key : String) (v : viewer) (h : (key, v) ∈ mergeChatters toLower c) :
    v.InChat = true ∧ v.IsFollower = true := by
  obtain ⟨w, -, hv⟩ := lastWrite_of_mem_mergeChatters toLower c key v h
  rw [hv]
  exact ⟨rfl, rfl⟩

/-- Witness of C7 on the entry `bob` of `sampleLists`. -/
theorem inChat_isFollower_always_witness :
    ("bob", viewerBobRecord) ∈ mergeChatters asciiLower sampleLists ∧
    (viewerBobRecord.InChat = true ∧ viewerBobRecord.IsFollower = true) :=
  ⟨by decide, inChat_isFollower_always asciiLower sampleLists "bob" viewerBobRecord
    (by decide)⟩

/-- C8: when the fetch delivers a body that `json.Unmarshal` rejects, `getChatters` returns
no map and the decoding error, and `audienceRequest` sets Content-Type to application/json
and writes exactly `{"status":500}`: on a fresh writer that is the whole body, so no viewer
array is written. -/
theorem audienceRequest_malformed_body (env : Env) (channel body : String) (err : GoError)
    (hfetch : env.httpGet (tmiBase ++ channel ++ chatters) = .ok body)
    (hbad : env.jsonUnmarshal body = .error err) :
    getChatters env channel = .error err ∧
    (∀ w : ResponseWriter, audienceRequest env channel w =
      (w.setHeader "Content-Type" "application/json").write "\x7b\"status\":500\x7d") ∧
    audienceRequest env channel ResponseWriter.fresh =
      { header := [("Content-Type", "application/json")], statusCode := some 200,
        body := "\x7b\"status\":500\x7d" } := by
  have hget : getChatters env channel = .error err := by
    simp [getChatters, hfetch, hbad]
  have hjs : marshalResponse { Status := 500 } = .ok "\x7b\"status\":500\x7d" := by
    rfl
  have hall : ∀ w : ResponseWriter, audienceRequest env channel w =
      (w.setHeader "Content-Type" "application/json").write "\x7b\"status\":500\x7d" := by
    intro w
    simp only [audienceRequest, hget, hjs]
  refine ⟨hget, hall, ?_⟩
  rw [hall]
  decide

/-- Witness of C8: the upstream replies with the body `not json`. -/
theorem audienceRequest_malformed_body_witness :
    ((sampleEnv (.ok "not json")).httpGet (tmiBase ++ "somechannel" ++ chatters) =
        .ok "not json" ∧
      (sampleEnv (.ok "not json")).jsonUnmarshal "not json" = .error "invalid character") ∧
    (getChatters (sampleEnv (.ok "not json")) "somechannel" = .error "invalid character" ∧
    (∀ w : ResponseWriter, audienceRequest (sampleEnv (.ok "not json")) "somechannel" w =
      (w.setHeader "Content-Type" "application/json").write "\x7b\"status\":500\x7d") ∧
    audienceRequest (sampleEnv (.ok "not json")) "somechannel" ResponseWriter.fresh =
      { header := [("Content-Type", "application/json")], statusCode := some 200,
        body := "\x7b\"status\":500\x7d" }) :=
  ⟨⟨rfl, rfl⟩,
    audienceRequest_malformed_body (sampleEnv (.ok "not json")) "somechannel" "not json"
      "invalid character" rfl rfl⟩

/-- C9: when the decoded document has all six lists empty, `getChatters` returns the map it
made, with zero entries, and no error, and `audienceRequest` sets Content-Type to
application/json and writes the empty JSON array `[]`, not the failure envelope. -/
theorem audienceRequest_empty_document (env : Env) (channel body : String) (tmp : ChatterDoc)
    (hperm : ∀ m, (env.rangeOrder m).Perm m)
    (hfetch : env.httpGet (tmiBase ++ channel ++ chatters) = .ok body)
    (hdec : env.jsonUnmarshal body = .ok tmp)
    (hempty : tmp.Chatters = emptyLists) :
    getChatters env channel = .ok [] ∧
    (∀ w : ResponseWriter, audienceRequest env channel w =
      (w.setHeader "Content-Type" "application/json").write "[]") ∧
    audienceRequest env channel ResponseWriter.fresh =
      { header := [("Content-Type", "application/json")], statusCode := some 200,
        body := "[]" } := by
  have hmerge : mergeChatters env.toLower emptyLists = [] := by
    simp [mergeChatters, emptyLists]
  have hget : getChatters env channel = .ok [] := by
    simp [getChatters, hfetch, hdec, hempty, hmerge]
  have hres : audienceResult env [] = [] := by
    rw [audienceResult_eq_map, List.Perm.eq_nil (hperm [])]
    rfl
  have hjs : marshalViewers env.jsonQuote [] = .ok "[]" := by
    rfl
  have hall : ∀ w : ResponseWriter, audienceRequest env channel w =
      (w.setHeader "Content-Type" "application/json").write "[]" := by
    intro w
    simp only [audienceRequest, hget, hres, hjs]
  refine ⟨hget, hall, ?_⟩
  rw [hall]
  decide

/-- Witness of C9: the upstream replies with the body `{"chatters":{}}`. -/
theorem audienceRequest_empty_document_witness :
    ((∀ m, ((sampleEnv (.ok "\x7b\"chatters\":\x7b\x7d\x7d")).rangeOrder m).Perm m) ∧
      (sampleEnv (.ok "\x7b\"chatters\":\x7b\x7d\x7d")).httpGet
        (tmiBase ++ "somechannel" ++ chatters) = .ok "\x7b\"chatters\":\x7b\x7d\x7d" ∧
      (sampleEnv (.ok "\x7b\"chatters\":\x7b\x7d\x7d")).jsonUnmarshal
        "\x7b\"chatters\":\x7b\x7d\x7d" = .ok { Chatters := emptyLists } ∧
      ({ Chatters := emptyLists } : ChatterDoc).Chatters = emptyLists) ∧
    (getChatters (sampleEnv (.ok "\x7b\"chatters\":\x7b\x7d\x7d")) "somechannel" = .ok [] ∧
    (∀ w : ResponseWriter,
      audienceRequest (sampleEnv (.ok "\x7b\"chatters\":\x7b\x7d\x7d")) "somechannel" w =
        (w.setHeader "Content-Type" "application/json").write "[]") ∧
    audienceRequest (sampleEnv (.ok "\x7b\"chatters\":\x7b\x7d\x7d")) "somechannel"
        ResponseWriter.fresh =
      { header := [("Content-Type", "application/json")], statusCode := some 200,
        body := "[]" }) :=
  ⟨⟨fun m => List.Perm.refl m, rfl, rfl, rfl⟩,
    audienceRequest_empty_document (sampleEnv (.ok "\x7b\"chatters\":\x7b\x7d\x7d"))
      "somechannel" "\x7b\"chatters\":\x7b\x7d\x7d" { Chatters := emptyLists }
      (fun m => List.Perm.refl m) rfl rfl rfl⟩

/-- The six loops alone: keys, entries and sizes of the map they build, and the length of
the slice collected from it. -/
theorem mergeChatters_keys_and_size (env : Env) (c : ChatterLists)
    (hperm : ∀ m, (env.rangeOrder m).Perm m) :
    (∀ key, key ∈ (mergeChatters env.toLower c).keys ↔
      ∃ n ∈ allNames c, env.toLower n = key) ∧
    (mergeChatters env.toLower c).keys.Nodup ∧
    (∀ e ∈ mergeChatters env.toLower c,
      e.1 = env.toLower e.2.Name ∧ e.2.Name ∈ allNames c) ∧
    (mergeChatters env.toLower c).length ≤ (allNames c).length ∧
    (audienceResult env (mergeChatters env.toLower c)).length ≤ (allNames c).length := by
  have hlen : (mergeChatters env.toLower c).length ≤ (allNames c).length := by
    rw [mergeChatters_eq_applyWrites, ← length_writeLog]
    simpa using length_applyWrites_le env.toLower (writeLog c) []
  refine ⟨?_, nodup_keys_mergeChatters env.toLower c, ?_, hlen, ?_⟩
  · intro key
    rw [mergeChatters_eq_applyWrites, mem_keys_applyWrites, ← map_snd_writeLog]
    simp only [ViewerMap.keys, List.map_nil, List.not_mem_nil, false_or, List.mem_map]
    constructor
    · rintro ⟨w, hw, hk⟩
      exact ⟨w.2, ⟨w, hw, rfl⟩, hk⟩
    · rintro ⟨n, ⟨w, hw, rfl⟩, hk⟩
      exact ⟨w, hw, hk⟩
  · intro e he
    rw [mergeChatters_eq_applyWrites] at he
    rcases mem_applyWrites env.toLower (writeLog c) [] e he with h | ⟨w, hw, rfl⟩
    · simp at h
    · refine ⟨rfl, ?_⟩
      rw [← map_snd_writeLog]
      exact List.mem_map_of_mem Prod.snd hw
  · rw [audienceResult_eq_map, List.length_map, (hperm _).length_eq]
    exact hlen

/-- On `sampleLists` four names give three entries: the bound of C10 is not an equality. -/
theorem mergeChatters_sampleLists_size :
    (mergeChatters asciiLower sampleLists).length = 3 ∧ (allNames sampleLists).length = 4 := by
  decide

/-- C10: whenever the fetch and the decoding succeed, `getChatters` returns a map whose keys
are exactly the lowercased forms of the names of the six decoded buckets (no name is dropped,
no key is invented, no key occurs twice); every entry is stored under the lowercased form of
its own Name, which is one of the input names as written; the number of entries is at most
the total number of input names; and `audienceRequest` writes, with Content-Type
application/json, the JSON array of a slice that holds the records of that map once each, so
the array has at most as many elements as there are input names. -/
theorem getChatters_keys_and_size (env : Env) (channel body : String) (tmp : ChatterDoc)
    (hperm : ∀ m, (env.rangeOrder m).Perm m)
    (hfetch : env.httpGet (tmiBase ++ channel ++ chatters) = .ok body)
    (hdec : env.jsonUnmarshal body = .ok tmp) :
    ∃ (viewers : ViewerMap) (result : List viewer),
      getChatters env channel = .ok viewers ∧
      (∀ key, key ∈ viewers.keys ↔ ∃ n ∈ allNames tmp.Chatters, env.toLower n = key) ∧
      viewers.keys.Nodup ∧
      (∀ e ∈ viewers, e.1 = env.toLower e.2.Name ∧ e.2.Name ∈ allNames tmp.Chatters) ∧
      viewers.length ≤ (allNames tmp.Chatters).length ∧
      result.Perm (viewers.map Prod.snd) ∧
      result.length ≤ (allNames tmp.Chatters).length ∧
      ∀ w : ResponseWriter, audienceRequest env channel w =
        (w.setHeader "Content-Type" "application/json").write
          ("[" ++ String.intercalate "," (result.map (marshalViewer env.jsonQuote)) ++ "]") := by
  have hget : getChatters env channel = .ok (mergeChatters env.toLower tmp.Chatters) := by
    simp [getChatters, hfetch, hdec]
  obtain ⟨hkeys, hnd, hent, hlen, hres⟩ := mergeChatters_keys_and_size env tmp.Chatters hperm
  refine ⟨mergeChatters env.toLower tmp.Chatters,
    audienceResult env (mergeChatters env.toLower tmp.Chatters),
    hget, hkeys, hnd, hent, hlen, ?_, hres, ?_⟩
  · rw [audienceResult_eq_map]
    exact (hperm _).map Prod.snd
  · intro w
    simp only [audienceRequest, hget, marshalViewers]

/-- Witness of C10: the upstream replies with `sampleBody`, decoded as `sampleLists`. -/
theorem getChatters_keys_and_size_witness :
    ((∀ m, (listingEnv.rangeOrder m).Perm m) ∧
      listingEnv.httpGet (tmiBase ++ "somechannel" ++ chatters) = .ok sampleBody ∧
      listingEnv.jsonUnmarshal sampleBody = .ok { Chatters := sampleLists }) ∧
    ∃ (viewers : ViewerMap) (result : List viewer),
      getChatters listingEnv "somechannel" = .ok viewers ∧
      (∀ key, key ∈ viewers.keys ↔
        ∃ n ∈ allNames ({ Chatters := sampleLists } : ChatterDoc).Chatters,
          listingEnv.toLower n = key) ∧
      viewers.keys.Nodup ∧
      (∀ e ∈ viewers, e.1 = listingEnv.toLower e.2.Name ∧
        e.2.Name ∈ allNames ({ Chatters := sampleLists } : ChatterDoc).Chatters) ∧
      viewers.length ≤ (allNames ({ Chatters := sampleLists } : ChatterDoc).Chatters).length ∧
      result.Perm (viewers.map Prod.snd) ∧
      result.length ≤ (allNames ({ Chatters := sampleLists } : ChatterDoc).Chatters).length ∧
      ∀ w : ResponseWriter, audienceRequest listingEnv "somechannel" w =
        (w.setHeader "Content-Type" "application/json").write
          ("[" ++ String.intercalate "," (result.map (marshalViewer listingEnv.jsonQuote)) ++
            "]") :=
  ⟨⟨fun m => List.Perm.refl m, rfl, rfl⟩,
    getChatters_keys_and_size listingEnv "somechannel" sampleBody { Chatters := sampleLists }
      (fun m => List.Perm.refl m) rfl rfl⟩

/-- Evaluation of both handlers on `listingEnv`: the map `getChatters` returns and the body
`audienceRequest` writes for the four names of `sampleLists`. -/
theorem audienceRequest_listingEnv :
    getChatters listingEnv "somechannel" =
      .ok [("bob", viewerBobRecord), ("alice", aliceRecord),
        ("carol", { Name := "carol", InChat := true, IsFollower := true, IsMod := false })] ∧
    (audienceRequest listingEnv "somechannel" ResponseWriter.fresh).body =
      "[\x7b\"name\":\"BOB\",\"inChat\":true,\"isFollower\":true,\"isMod\":false\x7d," ++
      "\x7b\"name\":\"alice\",\"inChat\":true,\"isFollower\":true,\"isMod\":true\x7d," ++
      "\x7b\"name\":\"carol\",\"inChat\":true,\"isFollower\":true,\"isMod\":false\x7d]" := by
  constructor
  · rfl
  · rfl

end TwitchIntegration
